import Mathlib

/-!
Verification of the theme-color resolver `extractColor` from
`src/screens` (HealthHistoryScreen), together with its helper
predicates `isHex`, `isRgb`, `isColorName`.

JavaScript strings are modelled as `List Char`; JavaScript runtime
values as the inductive type `JSValue`.  The resolver's `string | null`
fallback (recursive calls pass `null as any`) is modelled as
`Option JStr`, with `none` standing for `null`.
-/

/-- A JavaScript string, modelled as its list of characters. -/
abbrev JStr := List Char

/-- The whitespace code points removed by `String.prototype.trim`
(ECMAScript WhiteSpace and LineTerminator sets). -/
def jsWhitespaceCodes : List Nat :=
  [0x9, 0xA, 0xB, 0xC, 0xD, 0x20, 0xA0, 0x1680,
   0x2000, 0x2001, 0x2002, 0x2003, 0x2004, 0x2005, 0x2006, 0x2007,
   0x2008, 0x2009, 0x200A, 0x2028, 0x2029, 0x202F, 0x205F, 0x3000, 0xFEFF]

/-- Whether a character is JavaScript trim-whitespace. -/
def isJsWhitespace (c : Char) : Bool := jsWhitespaceCodes.contains c.toNat

/-- `String.prototype.trim`: strip whitespace from both ends. -/
def jsTrim (s : JStr) : JStr :=
  ((s.dropWhile isJsWhitespace).reverse.dropWhile isJsWhitespace).reverse

/-- Hexadecimal digit, as in the character class `[A-Fa-f0-9]`. -/
def isHexDigit (c : Char) : Bool :=
  (('0' ≤ c) && (c ≤ '9')) || (('a' ≤ c) && (c ≤ 'f')) || (('A' ≤ c) && (c ≤ 'F'))

/-- Source: `const isHex = (s) => /^#([A-Fa-f0-9]{3,8})$/.test(s?.trim?.() ?? '')`:
the argument is trimmed, then matched against `#` followed by 3 to 8 hex
digits. -/
def isHex (s : JStr) : Bool :=
  match jsTrim s with
  | '#' :: rest =>
      rest.all isHexDigit && decide (3 ≤ rest.length) && decide (rest.length ≤ 8)
  | _ => false

/-- Source: `const isRgb = (s) => /^rgba?\(/i.test(s?.trim?.() ?? '')`:
the argument is trimmed, then tested for a case-insensitive `rgb(` or
`rgba(` at its start. -/
def isRgb (s : JStr) : Bool :=
  let l := (jsTrim s).map Char.toLower
  l.take 4 == ['r', 'g', 'b', '('] || l.take 5 == ['r', 'g', 'b', 'a', '(']

/-- Source: `const isColorName = (s) => /^[a-zA-Z]+$/.test(s?.trim?.() ?? '')`:
the argument is trimmed, then tested to be one or more ASCII letters. -/
def isColorName (s : JStr) : Bool :=
  !(jsTrim s).isEmpty && (jsTrim s).all (fun c =>
    (('a' ≤ c) && (c ≤ 'z')) || (('A' ≤ c) && (c ≤ 'Z')))

/-- Decimal digits of a natural number, as produced by JavaScript
`String(n)` for a non-negative integer. -/
def natToChars (n : Nat) : List Char :=
  if h : n < 10 then [Char.ofNat (48 + n)]
  else natToChars (n / 10) ++ [Char.ofNat (48 + n % 10)]
decreasing_by
  have h10 : 10 ≤ n := Nat.le_of_not_lt h
  exact Nat.div_lt_self (Nat.lt_of_lt_of_le (by decide) h10) (by decide)

/-- JavaScript `String(n)` for an integer-valued number. -/
def intToChars (n : Int) : List Char :=
  if n < 0 then '-' :: natToChars n.natAbs else natToChars n.natAbs

/-- A JavaScript runtime value, restricted to the shapes the resolver
inspects: `null`, `undefined`, strings, (integer) numbers, booleans,
plain objects (own enumerable properties in insertion order, keys
unique) and arrays. -/
inductive JSValue where
  | null
  | undefined
  | str (s : JStr)
  | num (n : Int)
  | bool (b : Bool)
  | obj (fields : List (String × JSValue))
  | arr (elems : List JSValue)
deriving Repr

/-- `Object.prototype.hasOwnProperty.call(value, k)` on a plain object. -/
def hasOwnProperty (fields : List (String × JSValue)) (k : String) : Bool :=
  fields.any (fun p => p.1 == k)

/-- Property access `value[k]` on a plain object (`undefined` if absent). -/
def getProp (fields : List (String × JSValue)) (k : String) : JSValue :=
  match fields.find? (fun p => p.1 == k) with
  | some p => p.2
  | none => JSValue.undefined

/-- JavaScript truthiness of a `string | null` candidate:
`null` and the empty string are falsy (`if (candidate) ...`). -/
def truthy : Option JStr → Bool
  | none => false
  | some s => !s.isEmpty

/-- A present property is structurally smaller than the field list. -/
theorem sizeOf_getProp_lt (fields : List (String × JSValue)) (k : String)
    (h : hasOwnProperty fields k = true) : sizeOf (getProp fields k) < sizeOf fields := by
  unfold getProp
  cases hfind : fields.find? (fun p => p.1 == k) with
  | none =>
      exfalso
      rw [List.find?_eq_none] at hfind
      simp only [hasOwnProperty, List.any_eq_true] at h
      obtain ⟨p, hp, hpk⟩ := h
      exact hfind p hp hpk
  | some p =>
      have hmem : p ∈ fields := List.mem_of_find?_eq_some hfind
      have h1 : sizeOf p < sizeOf fields := List.sizeOf_lt_of_mem hmem
      obtain ⟨a, b⟩ := p
      simp only [Prod.mk.sizeOf_spec] at h1
      simp only []
      omega

/-- The fixed priority list of key names searched first on objects. -/
def priorityKeys : List String :=
  ["hex", "color", "value", "main", "DEFAULT", "default", "light", "dark", "primary"]

mutual

/-- `function extractColor(value, fallback = '#000000')`, with the
`string | null` fallback as `Option JStr` (`none` is the `null as any`
sentinel used by recursive calls).

For a `typeof value === 'object'` value that is an array, the source's
priority-key loop finds no own property named after a priority key, its
`for (const k in value)` loop enumerates the indices in ascending order
(so `value[k]` walks the elements in order), and the `Array.isArray`
loop walks the elements in order again; both array passes are
`scanElems`. -/
def extractColor : JSValue → Option JStr → Option JStr
  | .null, fb => fb
  | .undefined, fb => fb
  | .str s, fb =>
      let t := jsTrim s
      if isHex t || isRgb t || isColorName t || decide (t.length > 0) then some t
      else fb
  | .num n, _ => some (intToChars n)
  | .bool _, fb => fb
  | .obj fields, fb =>
      match scanKeys fields priorityKeys with
      | some r => some r
      | none =>
          match scanKeys fields (fields.map Prod.fst) with
          | some r => some r
          | none => fb
  | .arr elems, fb =>
      match scanElems elems with
      | some r => some r
      | none =>
          match scanElems elems with
          | some r => some r
          | none => fb
termination_by v _ => (sizeOf v, 0)

/-- One pass of `for (const k of ...)` over a list of key names:
`if (hasOwnProperty(value, k)) { const candidate = extractColor(value[k], null); if (candidate) return candidate; }`.
Returns `none` when the loop falls through. -/
def scanKeys (fields : List (String × JSValue)) : List String → Option JStr
  | [] => none
  | k :: ks =>
      if h : hasOwnProperty fields k then
        let candidate := extractColor (getProp fields k) none
        if truthy candidate then candidate else scanKeys fields ks
      else scanKeys fields ks
termination_by ks => (sizeOf fields, ks.length + 1)
decreasing_by
  · exact Prod.Lex.left _ _ (sizeOf_getProp_lt fields k h)
  · exact Prod.Lex.right _ (by simp [List.length_cons])
  · exact Prod.Lex.right _ (by simp [List.length_cons])

/-- The element pass over an array:
`const candidate = extractColor(v, null); if (candidate) return candidate;`. -/
def scanElems : List JSValue → Option JStr
  | [] => none
  | v :: vs =>
      let candidate := extractColor v none
      if truthy candidate then candidate else scanElems vs
termination_by elems => (sizeOf elems, 0)

end

/-- The resolver as called from the screens: a string fallback is
supplied, and the result is used as a string. -/
def extractColorTop (v : JSValue) (fb : JStr) : JStr :=
  (extractColor v (some fb)).getD fb

/-! ### Unfolding equations for the resolver -/

theorem extractColor_null (fb : Option JStr) : extractColor .null fb = fb := by
  rw [extractColor]

theorem extractColor_undefined (fb : Option JStr) : extractColor .undefined fb = fb := by
  rw [extractColor]

theorem extractColor_bool (b : Bool) (fb : Option JStr) :
    extractColor (.bool b) fb = fb := by
  rw [extractColor]

theorem extractColor_num (n : Int) (fb : Option JStr) :
    extractColor (.num n) fb = some (intToChars n) := by
  rw [extractColor]

theorem extractColor_str (s : JStr) (fb : Option JStr) :
    extractColor (.str s) fb =
      if isHex (jsTrim s) || isRgb (jsTrim s) || isColorName (jsTrim s)
          || decide ((jsTrim s).length > 0)
      then some (jsTrim s) else fb := by
  simp [extractColor]

theorem extractColor_obj (fields : List (String × JSValue)) (fb : Option JStr) :
    extractColor (.obj fields) fb =
      match scanKeys fields priorityKeys with
      | some r => some r
      | none =>
          match scanKeys fields (fields.map Prod.fst) with
          | some r => some r
          | none => fb := by
  rw [extractColor]

theorem extractColor_arr (elems : List JSValue) (fb : Option JStr) :
    extractColor (.arr elems) fb =
      match scanElems elems with
      | some r => some r
      | none => fb := by
  rw [extractColor]
  cases h : scanElems elems <;> simp [h]

theorem scanKeys_nil (fields : List (String × JSValue)) : scanKeys fields [] = none := by
  rw [scanKeys]

theorem scanKeys_cons (fields : List (String × JSValue)) (k : String) (ks : List String) :
    scanKeys fields (k :: ks) =
      if hasOwnProperty fields k then
        if truthy (extractColor (getProp fields k) none) then
          extractColor (getProp fields k) none
        else scanKeys fields ks
      else scanKeys fields ks := by
  rw [scanKeys]
  by_cases h : hasOwnProperty fields k <;> simp [h]

theorem scanElems_nil : scanElems [] = none := by rw [scanElems]

theorem scanElems_cons (v : JSValue) (vs : List JSValue) :
    scanElems (v :: vs) =
      if truthy (extractColor v none) then extractColor v none else scanElems vs := by
  rw [scanElems]

/-- In the string branch, the disjunction of the three shape tests and
the non-emptiness test collapses to non-emptiness of the trimmed string:
each of `isHex`, `isRgb`, `isColorName` only accepts non-empty strings. -/
theorem strCond_eq_isEmpty (t : JStr) :
    (isHex t || isRgb t || isColorName t || decide (t.length > 0)) = !t.isEmpty := by
  cases t with
  | nil => decide
  | cons c cs => simp [List.length_cons]

theorem extractColor_str_eq (s : JStr) (fb : Option JStr) :
    extractColor (.str s) fb =
      if (jsTrim s).isEmpty then fb else some (jsTrim s) := by
  rw [extractColor_str, strCond_eq_isEmpty]
  cases h : (jsTrim s).isEmpty <;> simp [h]

/-! ### Characterizing the scans as "first hit wins" -/

/-- A key "hits" during a key pass: it is an own property and its value
recursively resolves (with the null sentinel fallback) to a truthy,
i.e. non-empty, candidate. -/
def keyHit (fields : List (String × JSValue)) (k : String) : Bool :=
  hasOwnProperty fields k && truthy (extractColor (getProp fields k) none)

/-- An array element "hits": it recursively resolves to a truthy candidate. -/
def elemHit (v : JSValue) : Bool := truthy (extractColor v none)

/-- The priority keys that hit on a given object, in priority order. -/
def priorityHits (fields : List (String × JSValue)) : List String :=
  priorityKeys.filter (keyHit fields)

/-- A key pass returns the candidate of the first hitting key, and
`none` when no key hits. -/
theorem scanKeys_eq (fields : List (String × JSValue)) (ks : List String) :
    scanKeys fields ks =
      ((ks.filter (keyHit fields)).head?).bind
        (fun k => extractColor (getProp fields k) none) := by
  induction ks with
  | nil => rw [scanKeys_nil]; rfl
  | cons k ks ih =>
      rw [scanKeys_cons]
      by_cases h1 : hasOwnProperty fields k
      · by_cases h2 : truthy (extractColor (getProp fields k) none)
        · have hk : keyHit fields k = true := by simp [keyHit, h1, h2]
          rw [if_pos h1, if_pos h2, List.filter_cons_of_pos hk]
          rfl
        · have hk : keyHit fields k = false := by simp [keyHit, h2]
          rw [if_pos h1, if_neg (by simp [h2]), List.filter_cons_of_neg (by simp [hk]), ih]
      · have hk : keyHit fields k = false := by simp [keyHit, h1]
        rw [if_neg h1, List.filter_cons_of_neg (by simp [hk]), ih]

/-- An element pass returns the candidate of the first hitting element,
and `none` when no element hits. -/
theorem scanElems_eq (vs : List JSValue) :
    scanElems vs =
      ((vs.filter elemHit).head?).bind (fun v => extractColor v none) := by
  induction vs with
  | nil => rw [scanElems_nil]; rfl
  | cons v vs ih =>
      rw [scanElems_cons]
      by_cases h : truthy (extractColor v none)
      · rw [if_pos h, List.filter_cons_of_pos (by simpa [elemHit] using h)]
        rfl
      · rw [if_neg h, List.filter_cons_of_neg (by simpa [elemHit] using h), ih]

theorem head?_some_mem {α : Type} {l : List α} {a : α} (h : l.head? = some a) : a ∈ l := by
  cases l with
  | nil => simp at h
  | cons x xs =>
      simp only [List.head?_cons, Option.some.injEq] at h
      exact h ▸ List.mem_cons_self x xs

/-- A hitting key's candidate is `some` non-empty string. -/
theorem keyHit_candidate {fields : List (String × JSValue)} {k : String}
    (h : keyHit fields k = true) :
    ∃ r, extractColor (getProp fields k) none = some r ∧ r ≠ [] := by
  simp only [keyHit, Bool.and_eq_true] at h
  cases hc : extractColor (getProp fields k) none with
  | none => rw [hc] at h; simp [truthy] at h
  | some r =>
      refine ⟨r, rfl, ?_⟩
      rw [hc] at h
      simpa [truthy, List.isEmpty_iff] using h.2

/-- If some priority key hits, the object branch returns the first
hitting priority key's candidate, whatever the fallback. -/
theorem obj_first_priority_hit (fields : List (String × JSValue)) (fb : Option JStr)
    (k : String) (h : (priorityHits fields).head? = some k) :
    extractColor (.obj fields) fb = extractColor (getProp fields k) none := by
  have hk : keyHit fields k = true :=
    (List.mem_filter.1 (head?_some_mem h)).2
  obtain ⟨r, hr, _⟩ := keyHit_candidate hk
  rw [extractColor_obj, scanKeys_eq]
  rw [show priorityKeys.filter (keyHit fields) = priorityHits fields from rfl, h]
  rw [show ((some k).bind fun k => extractColor (getProp fields k) none)
        = extractColor (getProp fields k) none from rfl, hr]

/-! ### Trimmed strings -/

/-- A string with no leading or trailing JavaScript whitespace. -/
def IsTrimmed (s : JStr) : Prop :=
  (∀ c, s.head? = some c → isJsWhitespace c = false) ∧
  (∀ c, s.getLast? = some c → isJsWhitespace c = false)

theorem dropWhile_eq_self_of_head {α : Type} (p : α → Bool) (l : List α)
    (h : ∀ c, l.head? = some c → p c = false) : l.dropWhile p = l := by
  cases l with
  | nil => rfl
  | cons c cs => rw [List.dropWhile_cons, h c rfl]; simp

theorem head?_dropWhile_false {α : Type} (p : α → Bool) (l : List α) :
    ∀ c, (l.dropWhile p).head? = some c → p c = false := by
  induction l with
  | nil => intro c h; simp at h
  | cons a l ih =>
      intro c h
      rw [List.dropWhile_cons] at h
      by_cases hp : p a
      · rw [if_pos hp] at h; exact ih c h
      · rw [if_neg hp] at h
        simp only [List.head?_cons, Option.some.injEq] at h
        subst h
        simpa using hp

theorem getLast?_some_mem {α : Type} {l : List α} {a : α}
    (h : l.getLast? = some a) : a ∈ l := by
  have h1 : l.reverse.head? = some a := by rwa [List.head?_reverse]
  exact List.mem_reverse.1 (head?_some_mem h1)

theorem isTrimmed_jsTrim (s : JStr) : IsTrimmed (jsTrim s) := by
  unfold jsTrim IsTrimmed
  constructor
  · intro c hc
    rw [List.head?_reverse] at hc
    have hne : ((s.dropWhile isJsWhitespace).reverse.dropWhile isJsWhitespace) ≠ [] := by
      intro h0; rw [h0] at hc; simp at hc
    obtain ⟨pre, hpre⟩ :=
      List.dropWhile_suffix (l := (s.dropWhile isJsWhitespace).reverse) (p := isJsWhitespace)
    have h2 :
        ((s.dropWhile isJsWhitespace).reverse).getLast? =
          ((s.dropWhile isJsWhitespace).reverse.dropWhile isJsWhitespace).getLast? := by
      conv_lhs => rw [← hpre]
      exact List.getLast?_append_of_ne_nil pre hne
    rw [hc] at h2
    rw [List.getLast?_reverse] at h2
    exact head?_dropWhile_false isJsWhitespace s c h2
  · intro c hc
    rw [List.getLast?_reverse] at hc
    exact head?_dropWhile_false isJsWhitespace _ c hc

theorem jsTrim_of_isTrimmed (s : JStr) (h : IsTrimmed s) : jsTrim s = s := by
  obtain ⟨h1, h2⟩ := h
  unfold jsTrim
  rw [dropWhile_eq_self_of_head _ s h1]
  rw [dropWhile_eq_self_of_head _ s.reverse
    (fun c hc => h2 c (by rwa [List.head?_reverse] at hc))]
  exact List.reverse_reverse s

theorem jsTrim_idem (s : JStr) : jsTrim (jsTrim s) = jsTrim s :=
  jsTrim_of_isTrimmed _ (isTrimmed_jsTrim s)

theorem isTrimmed_of_all_nonWs (s : JStr)
    (h : ∀ c ∈ s, isJsWhitespace c = false) : IsTrimmed s :=
  ⟨fun c hc => h c (head?_some_mem hc), fun c hc => h c (getLast?_some_mem hc)⟩

/-! ### The number branch produces non-empty trimmed strings -/

theorem natToChars_ne_nil (n : Nat) : natToChars n ≠ [] := by
  rw [natToChars]
  by_cases h : n < 10
  · simp [h]
  · simp [h]

theorem natToChars_mem_digit (n : Nat) :
    ∀ c ∈ natToChars n, 48 ≤ c.toNat ∧ c.toNat ≤ 57 := by
  induction n using Nat.strong_induction_on with
  | _ n ih =>
      rw [natToChars]
      by_cases h : n < 10
      · rw [dif_pos h]
        intro c hc
        simp only [List.mem_singleton] at hc
        subst hc
        interval_cases n <;> decide
      · rw [dif_neg h]
        intro c hc
        rw [List.mem_append] at hc
        cases hc with
        | inl h1 =>
            have h10 : 10 ≤ n := Nat.le_of_not_lt h
            exact ih (n / 10)
              (Nat.div_lt_self (Nat.lt_of_lt_of_le (by decide) h10) (by decide)) c h1
        | inr h2 =>
            simp only [List.mem_singleton] at h2
            subst h2
            have hm : n % 10 < 10 := Nat.mod_lt _ (by decide)
            generalize n % 10 = m at hm ⊢
            interval_cases m <;> decide

theorem isJsWhitespace_digit_false (c : Char)
    (h : 48 ≤ c.toNat ∧ c.toNat ≤ 57) : isJsWhitespace c = false := by
  unfold isJsWhitespace
  obtain ⟨h1, h2⟩ := h
  generalize hg : c.toNat = m at h1 h2 ⊢
  by_contra hc
  rw [Bool.not_eq_false, List.contains_iff_exists_mem_beq] at hc
  obtain ⟨m', hm', hbeq⟩ := hc
  have heq : m = m' := by simpa using hbeq
  subst heq
  interval_cases m <;> exact absurd hm' (by decide)

theorem isTrimmed_natToChars (n : Nat) : IsTrimmed (natToChars n) :=
  isTrimmed_of_all_nonWs _
    (fun c hc => isJsWhitespace_digit_false c (natToChars_mem_digit n c hc))

theorem intToChars_ne_nil (n : Int) : intToChars n ≠ [] := by
  unfold intToChars
  by_cases h : n < 0
  · simp [h]
  · simp [h, natToChars_ne_nil]

theorem isTrimmed_intToChars (n : Int) : IsTrimmed (intToChars n) := by
  unfold intToChars
  by_cases h : n < 0
  · rw [if_pos h]
    refine isTrimmed_of_all_nonWs _ (fun c hc => ?_)
    rw [List.mem_cons] at hc
    cases hc with
    | inl h1 => subst h1; decide
    | inr h2 => exact isJsWhitespace_digit_false c (natToChars_mem_digit _ c h2)
  · rw [if_neg h]
    exact isTrimmed_natToChars _

theorem jsTrim_intToChars (n : Int) : jsTrim (intToChars n) = intToChars n :=
  jsTrim_of_isTrimmed _ (isTrimmed_intToChars n)

/-! ### Soundness: a `some` result is the fallback or a non-empty trimmed literal -/

theorem scanKeys_sound (fields : List (String × JSValue)) (ks : List String)
    (IH : ∀ k, k ∈ ks → hasOwnProperty fields k = true →
      ∀ r, extractColor (getProp fields k) none = some r → r ≠ [] ∧ jsTrim r = r) :
    ∀ r, scanKeys fields ks = some r → r ≠ [] ∧ jsTrim r = r := by
  induction ks with
  | nil => intro r h; rw [scanKeys_nil] at h; exact absurd h (by simp)
  | cons k ks ih =>
      intro r h
      rw [scanKeys_cons] at h
      by_cases h1 : hasOwnProperty fields k
      · rw [if_pos h1] at h
        by_cases h2 : truthy (extractColor (getProp fields k) none)
        · rw [if_pos h2] at h
          exact IH k (List.mem_cons_self k ks) h1 r h
        · rw [if_neg h2] at h
          exact ih (fun k' hk' => IH k' (List.mem_cons_of_mem _ hk')) r h
      · rw [if_neg h1] at h
        exact ih (fun k' hk' => IH k' (List.mem_cons_of_mem _ hk')) r h

theorem scanElems_sound (elems : List JSValue)
    (IH : ∀ e, e ∈ elems → ∀ r, extractColor e none = some r → r ≠ [] ∧ jsTrim r = r) :
    ∀ r, scanElems elems = some r → r ≠ [] ∧ jsTrim r = r := by
  induction elems with
  | nil => intro r h; rw [scanElems_nil] at h; exact absurd h (by simp)
  | cons e es ih =>
      intro r h
      rw [scanElems_cons] at h
      by_cases h1 : truthy (extractColor e none)
      · rw [if_pos h1] at h
        exact IH e (List.mem_cons_self e es) r h
      · rw [if_neg h1] at h
        exact ih (fun e' he' => IH e' (List.mem_cons_of_mem _ he')) r h

theorem extractColor_sound_aux : ∀ (n : Nat) (v : JSValue), sizeOf v ≤ n →
    ∀ (fbo : Option JStr) (r : JStr),
    extractColor v fbo = some r → fbo = some r ∨ (r ≠ [] ∧ jsTrim r = r) := by
  intro n
  induction n using Nat.strong_induction_on with
  | _ n ih =>
    intro v hv fbo r h
    cases v with
    | null => rw [extractColor_null] at h; exact Or.inl h
    | undefined => rw [extractColor_undefined] at h; exact Or.inl h
    | bool b => rw [extractColor_bool] at h; exact Or.inl h
    | num m =>
        rw [extractColor_num] at h
        injection h with h
        subst h
        exact Or.inr ⟨intToChars_ne_nil m, jsTrim_intToChars m⟩
    | str s =>
        rw [extractColor_str_eq] at h
        by_cases he : (jsTrim s).isEmpty
        · rw [if_pos he] at h; exact Or.inl h
        · rw [if_neg he] at h
          injection h with h
          subst h
          refine Or.inr ⟨?_, jsTrim_idem s⟩
          simpa [List.isEmpty_iff] using he
    | obj fields =>
        have IHk : ∀ k, hasOwnProperty fields k = true →
            ∀ r', extractColor (getProp fields k) none = some r' →
            r' ≠ [] ∧ jsTrim r' = r' := by
          intro k hk r' h'
          have hlt : sizeOf (getProp fields k) < sizeOf (JSValue.obj fields) := by
            have := sizeOf_getProp_lt fields k hk
            simp only [JSValue.obj.sizeOf_spec]
            omega
          have hlt' : sizeOf (getProp fields k) < n := lt_of_lt_of_le hlt hv
          rcases ih _ hlt' _ le_rfl none r' h' with h0 | hg
          · exact absurd h0 (by simp)
          · exact hg
        rw [extractColor_obj] at h
        split at h
        · rename_i r1 hp
          injection h with h
          subst h
          exact Or.inr (scanKeys_sound fields priorityKeys (fun k _ => IHk k) r1 hp)
        · split at h
          · rename_i r2 hf
            injection h with h
            subst h
            exact Or.inr (scanKeys_sound fields _ (fun k _ => IHk k) r2 hf)
          · exact Or.inl h
    | arr elems =>
        have IHe : ∀ e, e ∈ elems →
            ∀ r', extractColor e none = some r' → r' ≠ [] ∧ jsTrim r' = r' := by
          intro e he r' h'
          have hlt : sizeOf e < sizeOf (JSValue.arr elems) := by
            have := List.sizeOf_lt_of_mem he
            simp only [JSValue.arr.sizeOf_spec]
            omega
          have hlt' : sizeOf e < n := lt_of_lt_of_le hlt hv
          rcases ih _ hlt' _ le_rfl none r' h' with h0 | hg
          · exact absurd h0 (by simp)
          · exact hg
        rw [extractColor_arr] at h
        split at h
        · rename_i r1 hp
          injection h with h
          subst h
          exact Or.inr (scanElems_sound elems IHe r1 hp)
        · exact Or.inl h

/-- Any `some` result of the resolver is either the supplied fallback or
a non-empty string with no leading or trailing whitespace. -/
theorem extractColor_sound (v : JSValue) (fbo : Option JStr) (r : JStr)
    (h : extractColor v fbo = some r) :
    fbo = some r ∨ (r ≠ [] ∧ jsTrim r = r) :=
  extractColor_sound_aux (sizeOf v) v le_rfl fbo r h

/-- With a real (string) fallback, the resolver always returns a string. -/
theorem extractColor_isSome (v : JSValue) (fb : JStr) :
    ∃ r, extractColor v (some fb) = some r := by
  cases v with
  | null => exact ⟨fb, extractColor_null _⟩
  | undefined => exact ⟨fb, extractColor_undefined _⟩
  | bool b => exact ⟨fb, extractColor_bool b _⟩
  | num m => exact ⟨intToChars m, extractColor_num m _⟩
  | str s =>
      rw [extractColor_str_eq]
      by_cases he : (jsTrim s).isEmpty
      · rw [if_pos he]; exact ⟨fb, rfl⟩
      · rw [if_neg he]; exact ⟨jsTrim s, rfl⟩
  | obj fields =>
      rw [extractColor_obj]
      cases hp : scanKeys fields priorityKeys with
      | some r1 => exact ⟨r1, rfl⟩
      | none =>
          cases hf : scanKeys fields (fields.map Prod.fst) with
          | some r2 => exact ⟨r2, rfl⟩
          | none => exact ⟨fb, rfl⟩
  | arr elems =>
      rw [extractColor_arr]
      cases hp : scanElems elems with
      | some r1 => exact ⟨r1, rfl⟩
      | none => exact ⟨fb, rfl⟩

/-- `extractColorTop` unfolded through `extractColor_isSome`. -/
theorem extractColorTop_eq (v : JSValue) (fb : JStr) :
    extractColor v (some fb) = some (extractColorTop v fb) := by
  obtain ⟨r, hr⟩ := extractColor_isSome v fb
  rw [extractColorTop, hr]
  rfl

/-! ### Remaining helpers for concrete and general claims -/

theorem keyHit_of_not_own (fields : List (String × JSValue)) (k : String)
    (h : hasOwnProperty fields k = false) : keyHit fields k = false := by
  unfold keyHit; rw [h]; rfl

theorem elemHit_candidate {e : JSValue} (h : elemHit e = true) :
    ∃ r, extractColor e none = some r ∧ r ≠ [] := by
  unfold elemHit at h
  cases hc : extractColor e none with
  | none => rw [hc] at h; simp [truthy] at h
  | some r =>
      refine ⟨r, rfl, ?_⟩
      rw [hc] at h
      simpa [truthy, List.isEmpty_iff] using h

/-- If some array element hits, the array branch returns the first
hitting element's candidate, whatever the fallback. -/
theorem arr_first_hit (elems : List JSValue) (fb : Option JStr) (e : JSValue)
    (h : (elems.filter elemHit).head? = some e) :
    extractColor (.arr elems) fb = extractColor e none := by
  have he : elemHit e = true := (List.mem_filter.1 (head?_some_mem h)).2
  obtain ⟨r, hr, _⟩ := elemHit_candidate he
  rw [extractColor_arr, scanElems_eq, h]
  rw [show ((some e).bind fun v => extractColor v none) = extractColor e none from rfl, hr]

theorem extractColorTop_of {v : JSValue} {fb w : JStr}
    (h : extractColor v (some fb) = some w) : extractColorTop v fb = w := by
  rw [extractColorTop, h]; rfl

/-! ### The claims -/

/-- C1: the resolver is total: for every input value (null, undefined,
string, number, boolean, object, or array of finite nesting depth) and
every fallback string it terminates (it is a total Lean function) and
returns a string — the `string | null` union never yields `null` when a
string fallback is supplied, so callers never see an error or a missing
result. -/
theorem claim_C1 (v : JSValue) (fb : JStr) :
    ∃ r, extractColor v (some fb) = some r :=
  extractColor_isSome v fb

/-- C2, counterexample: with the empty string as fallback and a `null`
input, the result is the empty string, so the result is not non-empty
for *every* fallback string. -/
theorem claim_C2_counterexample : extractColorTop JSValue.null [] = [] := by
  rw [extractColorTop, extractColor_null]
  rfl

/-- C2, amended: the result is either the caller-supplied fallback
itself, or a non-empty (and trimmed) literal extracted from the theme
value; in particular the result is non-empty whenever the fallback is. -/
theorem claim_C2 (v : JSValue) (fb : JStr) :
    extractColorTop v fb = fb ∨
      (extractColorTop v fb ≠ [] ∧
        jsTrim (extractColorTop v fb) = extractColorTop v fb) := by
  rcases extractColor_sound v (some fb) _ (extractColorTop_eq v fb) with h0 | hg
  · exact Or.inl (Option.some.inj h0).symm
  · exact Or.inr hg

/-- C6: on any string input the resolver returns the trimmed string when
that is non-empty (hex colors, `rgb(...)`/`rgba(...)` of any casing,
bare color names, and arbitrary non-empty tokens alike), and the
fallback exactly when the trimmed string is empty. -/
theorem claim_C6 (s : JStr) (fb : JStr) :
    extractColorTop (JSValue.str s) fb =
      if (jsTrim s).isEmpty then fb else jsTrim s := by
  rw [extractColorTop, extractColor_str_eq]
  by_cases he : (jsTrim s).isEmpty
  · rw [if_pos he, if_pos he]; rfl
  · rw [if_neg he, if_neg he]; rfl

/-- C8, counterexample: idempotence fails for a fallback with leading
whitespace: resolving `null` with fallback `" x"` returns `" x"`, but
re-resolving that output trims it to `"x"`. -/
theorem claim_C8_counterexample :
    extractColorTop (JSValue.str (extractColorTop JSValue.null " x".data)) " x".data
      ≠ extractColorTop JSValue.null " x".data := by
  have h1 : extractColorTop JSValue.null " x".data = " x".data := by
    rw [extractColorTop, extractColor_null]
    rfl
  rw [h1, extractColorTop, extractColor_str_eq]
  decide

/-- C8, amended: the resolver is idempotent on its own output whenever
the fallback has no leading or trailing whitespace (in particular for
the default `'#000000'` and every literal color fallback): re-resolving
the returned string with the same fallback returns it unchanged. -/
theorem claim_C8 (v : JSValue) (fb : JStr) (hfb : jsTrim fb = fb) :
    extractColorTop (JSValue.str (extractColorTop v fb)) fb = extractColorTop v fb := by
  rcases extractColor_sound v (some fb) _ (extractColorTop_eq v fb) with h0 | hg
  · have hfr : fb = extractColorTop v fb := Option.some.inj h0
    rw [← hfr, extractColorTop, extractColor_str_eq, hfb, ite_self]
    rfl
  · obtain ⟨hne, htr⟩ := hg
    rw [extractColorTop, extractColor_str_eq, htr,
      if_neg (by simpa [List.isEmpty_iff] using hne)]
    rfl

theorem claim_C8_witness :
    jsTrim "#000000".data = "#000000".data ∧
    extractColorTop (JSValue.str (extractColorTop JSValue.null "#000000".data)) "#000000".data
      = extractColorTop JSValue.null "#000000".data :=
  ⟨by decide, claim_C8 JSValue.null "#000000".data (by decide)⟩

/-- C9: boolean inputs match none of the resolver's branches and fall
through to the final fallback return. -/
theorem claim_C9 (b : Bool) (fb : JStr) :
    extractColorTop (JSValue.bool b) fb = fb := by
  rw [extractColorTop, extractColor_bool]
  rfl

/-- C10: whenever the result differs from the supplied fallback, it is a
non-empty string with no leading or trailing whitespace. -/
theorem claim_C10 (v : JSValue) (fb : JStr) (h : extractColorTop v fb ≠ fb) :
    extractColorTop v fb ≠ [] ∧
      jsTrim (extractColorTop v fb) = extractColorTop v fb := by
  rcases extractColor_sound v (some fb) _ (extractColorTop_eq v fb) with h0 | hg
  · exact absurd (Option.some.inj h0).symm h
  · exact hg

theorem claim_C10_witness :
    extractColorTop (JSValue.str "  red ".data) "#123".data ≠ "#123".data ∧
    (extractColorTop (JSValue.str "  red ".data) "#123".data ≠ [] ∧
      jsTrim (extractColorTop (JSValue.str "  red ".data) "#123".data)
        = extractColorTop (JSValue.str "  red ".data) "#123".data) := by
  have hyp : extractColorTop (JSValue.str "  red ".data) "#123".data ≠ "#123".data := by
    rw [extractColorTop, extractColor_str_eq]
    decide
  exact ⟨hyp, claim_C10 _ _ hyp⟩

/-- C3: fallback suppression during the priority pass: recursive lookups
use the null sentinel, a present priority key whose value resolves to
nothing (null, undefined, or a string that trims to empty) does not make
the resolver return the fallback — the scan moves to the next priority
key — and the result is the first priority key's candidate that is
non-empty, independent of the caller's fallback. -/
theorem claim_C3 (fields : List (String × JSValue)) (fb : JStr) (k : String)
    (h : (priorityHits fields).head? = some k) :
    extractColor (JSValue.obj fields) (some fb) = extractColor (getProp fields k) none :=
  obj_first_priority_hit fields (some fb) k h

theorem claim_C3_witness :
    (priorityHits [("hex", JSValue.null), ("color", JSValue.str "#fff".data)]).head?
        = some "color" ∧
    extractColor (JSValue.obj [("hex", JSValue.null), ("color", JSValue.str "#fff".data)])
        (some "#999".data)
      = extractColor
          (getProp [("hex", JSValue.null), ("color", JSValue.str "#fff".data)] "color")
          none := by
  have kh : keyHit [("hex", JSValue.null), ("color", JSValue.str "#fff".data)] "hex"
      = false := by
    unfold keyHit
    rw [show getProp [("hex", JSValue.null), ("color", JSValue.str "#fff".data)] "hex"
          = JSValue.null from rfl, extractColor_null]
    decide
  have kc : keyHit [("hex", JSValue.null), ("color", JSValue.str "#fff".data)] "color"
      = true := by
    unfold keyHit
    rw [show getProp [("hex", JSValue.null), ("color", JSValue.str "#fff".data)] "color"
          = JSValue.str "#fff".data from rfl, extractColor_str_eq]
    decide
  have habs := keyHit_of_not_own [("hex", JSValue.null), ("color", JSValue.str "#fff".data)]
  have hyp : (priorityHits [("hex", JSValue.null), ("color", JSValue.str "#fff".data)]).head?
      = some "color" := by
    simp only [priorityHits, priorityKeys, List.filter_cons, List.filter_nil, kh, kc,
      habs "value" (by decide), habs "main" (by decide), habs "DEFAULT" (by decide),
      habs "default" (by decide), habs "light" (by decide), habs "dark" (by decide),
      habs "primary" (by decide)]
    decide
  exact ⟨hyp, claim_C3 _ "#999".data "color" hyp⟩

/-- C5: when two or more priority keys are present with non-empty
recursive results, the earliest one in the fixed priority order decides
the result. -/
theorem claim_C5 (fields : List (String × JSValue)) (fb : JStr) (k : String)
    (htwo : 2 ≤ (priorityHits fields).length)
    (h : (priorityHits fields).head? = some k) :
    extractColor (JSValue.obj fields) (some fb) = extractColor (getProp fields k) none :=
  obj_first_priority_hit fields (some fb) k h

theorem claim_C5_witness :
    2 ≤ (priorityHits
        [("hex", JSValue.str "#000".data), ("color", JSValue.str "#fff".data)]).length ∧
    (priorityHits
        [("hex", JSValue.str "#000".data), ("color", JSValue.str "#fff".data)]).head?
      = some "hex" ∧
    extractColor
        (JSValue.obj [("hex", JSValue.str "#000".data), ("color", JSValue.str "#fff".data)])
        (some "#999".data)
      = extractColor
          (getProp [("hex", JSValue.str "#000".data), ("color", JSValue.str "#fff".data)]
            "hex") none := by
  have kh : keyHit [("hex", JSValue.str "#000".data), ("color", JSValue.str "#fff".data)]
      "hex" = true := by
    unfold keyHit
    rw [show getProp [("hex", JSValue.str "#000".data), ("color", JSValue.str "#fff".data)]
          "hex" = JSValue.str "#000".data from rfl, extractColor_str_eq]
    decide
  have kc : keyHit [("hex", JSValue.str "#000".data), ("color", JSValue.str "#fff".data)]
      "color" = true := by
    unfold keyHit
    rw [show getProp [("hex", JSValue.str "#000".data), ("color", JSValue.str "#fff".data)]
          "color" = JSValue.str "#fff".data from rfl, extractColor_str_eq]
    decide
  have habs := keyHit_of_not_own
    [("hex", JSValue.str "#000".data), ("color", JSValue.str "#fff".data)]
  have hlist : priorityHits
      [("hex", JSValue.str "#000".data), ("color", JSValue.str "#fff".data)]
      = ["hex", "color"] := by
    simp only [priorityHits, priorityKeys, List.filter_cons, List.filter_nil, kh, kc,
      habs "value" (by decide), habs "main" (by decide), habs "DEFAULT" (by decide),
      habs "default" (by decide), habs "light" (by decide), habs "dark" (by decide),
      habs "primary" (by decide)]
    decide
  refine ⟨by rw [hlist]; decide, by rw [hlist]; rfl, ?_⟩
  exact claim_C5 _ "#999".data "hex" (by rw [hlist]; decide) (by rw [hlist]; rfl)

/-- C7: an array is scanned in element order, recursing into each, and
the first element whose recursive resolution is non-empty decides the
result, whatever the fallback. -/
theorem claim_C7 (elems : List JSValue) (fb : JStr) (e : JSValue)
    (h : (elems.filter elemHit).head? = some e) :
    extractColor (JSValue.arr elems) (some fb) = extractColor e none :=
  arr_first_hit elems (some fb) e h

theorem claim_C7_witness :
    (([JSValue.str "#abc".data, JSValue.str "#def".data]).filter elemHit).head?
        = some (JSValue.str "#abc".data) ∧
    extractColor (JSValue.arr [JSValue.str "#abc".data, JSValue.str "#def".data])
        (some "#999".data)
      = extractColor (JSValue.str "#abc".data) none := by
  have ha : elemHit (JSValue.str "#abc".data) = true := by
    unfold elemHit
    rw [extractColor_str_eq]
    decide
  have hd : elemHit (JSValue.str "#def".data) = true := by
    unfold elemHit
    rw [extractColor_str_eq]
    decide
  have hyp : (([JSValue.str "#abc".data, JSValue.str "#def".data]).filter elemHit).head?
      = some (JSValue.str "#abc".data) := by
    simp only [List.filter_cons, List.filter_nil, ha, hd]
    simp
  exact ⟨hyp, claim_C7 _ "#999".data _ hyp⟩

/-! ### Concrete evaluation of `{ primary: { DEFAULT: "#112233" } }` -/

theorem c4inner_eval :
    extractColor (JSValue.obj [("DEFAULT", JSValue.str "#112233".data)]) none
      = some "#112233".data := by
  have estr : extractColor (JSValue.str "#112233".data) none = some "#112233".data := by
    rw [extractColor_str_eq]
    decide
  have kiD : keyHit [("DEFAULT", JSValue.str "#112233".data)] "DEFAULT" = true := by
    unfold keyHit
    rw [show getProp [("DEFAULT", JSValue.str "#112233".data)] "DEFAULT"
          = JSValue.str "#112233".data from rfl, estr]
    decide
  have habs := keyHit_of_not_own [("DEFAULT", JSValue.str "#112233".data)]
  have hits : (priorityHits [("DEFAULT", JSValue.str "#112233".data)]).head?
      = some "DEFAULT" := by
    simp only [priorityHits, priorityKeys, List.filter_cons, List.filter_nil, kiD,
      habs "hex" (by decide), habs "color" (by decide), habs "value" (by decide),
      habs "main" (by decide), habs "default" (by decide), habs "light" (by decide),
      habs "dark" (by decide), habs "primary" (by decide)]
    decide
  rw [obj_first_priority_hit _ none "DEFAULT" hits,
    show getProp [("DEFAULT", JSValue.str "#112233".data)] "DEFAULT"
        = JSValue.str "#112233".data from rfl, estr]

theorem c4outer_hits :
    (priorityHits
        [("primary", JSValue.obj [("DEFAULT", JSValue.str "#112233".data)])]).head?
      = some "primary" := by
  have koP : keyHit [("primary", JSValue.obj [("DEFAULT", JSValue.str "#112233".data)])]
      "primary" = true := by
    unfold keyHit
    rw [show getProp [("primary", JSValue.obj [("DEFAULT", JSValue.str "#112233".data)])]
          "primary" = JSValue.obj [("DEFAULT", JSValue.str "#112233".data)] from rfl,
      c4inner_eval]
    decide
  have habs := keyHit_of_not_own
    [("primary", JSValue.obj [("DEFAULT", JSValue.str "#112233".data)])]
  simp only [priorityHits, priorityKeys, List.filter_cons, List.filter_nil, koP,
    habs "hex" (by decide), habs "color" (by decide), habs "value" (by decide),
    habs "main" (by decide), habs "DEFAULT" (by decide), habs "default" (by decide),
    habs "light" (by decide), habs "dark" (by decide)]
  decide

/-- C4, counterexample: `primary` IS one of the priority keys (the last),
so on `{ primary: { DEFAULT: "#112233" } }` the priority-key pass itself
already returns `"#112233"`; `primary` is not first reached by the
fallback scan of remaining keys as the claim asserts. -/
theorem claim_C4_counterexample :
    priorityKeys.contains "primary" = true ∧
    scanKeys [("primary", JSValue.obj [("DEFAULT", JSValue.str "#112233".data)])]
        priorityKeys
      = some "#112233".data := by
  refine ⟨by decide, ?_⟩
  rw [scanKeys_eq,
    show List.filter
        (keyHit [("primary", JSValue.obj [("DEFAULT", JSValue.str "#112233".data)])])
        priorityKeys
      = priorityHits [("primary", JSValue.obj [("DEFAULT", JSValue.str "#112233".data)])]
      from rfl,
    c4outer_hits,
    show ((some "primary").bind fun k => extractColor
        (getProp [("primary", JSValue.obj [("DEFAULT", JSValue.str "#112233".data)])] k)
        none)
      = extractColor
          (getProp [("primary", JSValue.obj [("DEFAULT", JSValue.str "#112233".data)])]
            "primary") none from rfl,
    show getProp [("primary", JSValue.obj [("DEFAULT", JSValue.str "#112233".data)])]
        "primary" = JSValue.obj [("DEFAULT", JSValue.str "#112233".data)] from rfl,
    c4inner_eval]

/-- C4, amended: for `{ primary: { DEFAULT: "#112233" } }` and any
fallback the resolver returns `"#112233"`, with `primary` found by the
priority-key pass at the top level (`primary` is itself the last
priority key) and `DEFAULT` inside it being a priority key. -/
theorem claim_C4 (fb : JStr) :
    extractColorTop
        (JSValue.obj [("primary", JSValue.obj [("DEFAULT", JSValue.str "#112233".data)])])
        fb
      = "#112233".data ∧ priorityKeys.contains "primary" = true := by
  refine ⟨?_, by decide⟩
  refine extractColorTop_of ?_
  rw [obj_first_priority_hit _ (some fb) "primary" c4outer_hits,
    show getProp [("primary", JSValue.obj [("DEFAULT", JSValue.str "#112233".data)])]
        "primary" = JSValue.obj [("DEFAULT", JSValue.str "#112233".data)] from rfl,
    c4inner_eval]
